import Mathlib

/-!
Verification of the storage-element (memory / ROM) model of the PyRTL
example repository.  The circuit under study is the one built in
`ipynb-examples/example6-memory.ipynb`: two 32-bit, 8-entry memories
(`mem1` written at an input address, `mem2` at an incrementing register
address), their read/write ports and write-enable gating, the `count`
register, the `validate` output, and two 5-bit, 16-entry ROMs defined
from a function and from a list.

The semantics of the storage primitives themselves (MemBlock, RomBlock,
EnabledWrite, Simulation.step) are not part of the repository's sources;
they are modelled from the specification: reads are combinational against
the state as of the start of the cycle, writes are staged during a cycle
and committed only at the cycle boundary, an optional enable wire gates a
write by `enable_wire.value != 0` (absent wire means always enabled), all
circuit values are bit vectors truncated to their wire's width, and ROMs
have zero write ports.
-/

namespace PyRTL

/-- Truncation of a value to a `w`-bit wire: all circuit-level values are
bit vectors in `[0, 2 ^ w)`. -/
def maskW (w v : Nat) : Nat := v % 2 ^ w

/-- Contents of a storage element: a mapping from address to stored value. -/
abbrev Contents := Nat → Nat

/-- Modelled from the spec: the write-enable gating contract.
`effective_enable = enable_wire.value != 0` when an enable wire is
present, else `true`. -/
def effectiveEnable : Option Nat → Bool
  | some e => decide (e ≠ 0)
  | none => true

/-- Modelled from the spec: applying one staged write (address, data,
optional enable value) to the contents at commit time.  A disabled write
leaves the contents untouched. -/
def commitPortWrite (m : Contents) (addr data : Nat) (en : Option Nat) : Contents :=
  if effectiveEnable en then fun a => if a = addr then data else m a else m

/-- Modelled from the spec: `commit_pending_writes` applies all writes
staged this cycle in port declaration order (last-registered port wins). -/
def commitPendingWrites (m : Contents) (staged : List (Nat × Nat × Option Nat)) : Contents :=
  staged.foldl (fun acc w => commitPortWrite acc w.1 w.2.1 w.2.2) m

/-- A storage element: a numeric instance id (distinct instances may share
a logical name/shape), a bitwidth, an addrwidth and the owned contents
array.  Modelled from the spec's StorageElement record. -/
structure StorageElement where
  ident : Nat
  bitwidth : Nat
  addrwidth : Nat
  contents : Contents

/-- Combinational read-port output: pure lookup of the current contents at
the address wire's value (already bounded by the address wire's width). -/
def elementRead (e : StorageElement) (raddr : Nat) : Nat :=
  e.contents (maskW e.addrwidth raddr)

/-- One simulation cycle of a storage element with a single enabled write
port: the staged write `(waddr, wdata, we)` is committed at the cycle
boundary.  Wire values are truncated to their widths. -/
def elementStep (e : StorageElement) (waddr wdata we : Nat) : StorageElement :=
  ⟨e.ident, e.bitwidth, e.addrwidth,
    commitPendingWrites e.contents
      [(maskW e.addrwidth waddr, maskW e.bitwidth wdata, some (maskW 1 we))]⟩

/-- Running a storage element over a list of per-cycle write-port inputs
`(waddr, wdata, we)`. -/
def elementRun (e : StorageElement) : List (Nat × Nat × Nat) → StorageElement
  | [] => e
  | (wa, wd, w) :: rest => elementRun (elementStep e wa wd w) rest

/-- The per-cycle read-port output trace of a storage element fed a list of
inputs `(raddr, waddr, wdata, we)`: each cycle the read is combinational
against the start-of-cycle contents, then the write commits. -/
def elementTrace (e : StorageElement) : List (Nat × Nat × Nat × Nat) → List Nat
  | [] => []
  | (ra, wa, wd, w) :: rest => elementRead e ra :: elementTrace (elementStep e wa wd w) rest

/-! ### The two-memory circuit of the notebook (Part 1) -/

/-- The four Input wires of the two-memory circuit:
`waddr = Input(3)`, `wdata = Input(32)`, `we = Input(1)`, `raddr = Input(3)`. -/
structure MemCircuitInputs where
  waddr : Nat
  wdata : Nat
  we : Nat
  raddr : Nat

/-- The persistent state of the two-memory circuit: the contents of
`mem1 = MemBlock(bitwidth=32, addrwidth=3)` and
`mem2 = MemBlock(32, 3)`, and the 3-bit register `count`. -/
structure MemCircuitState where
  mem1 : Contents
  mem2 : Contents
  count : Nat

/-- Output `rdata1 <<= mem1[raddr]`: combinational read of `mem1`. -/
def rdata1 (s : MemCircuitState) (i : MemCircuitInputs) : Nat :=
  s.mem1 (maskW 3 i.raddr)

/-- Output `rdata2 <<= mem2[raddr]`: combinational read of `mem2`. -/
def rdata2 (s : MemCircuitState) (i : MemCircuitInputs) : Nat :=
  s.mem2 (maskW 3 i.raddr)

/-- Output `validate <<= waddr == count`. -/
def validate (s : MemCircuitState) (i : MemCircuitInputs) : Nat :=
  if maskW 3 i.waddr = s.count then 1 else 0

/-- One simulation cycle of the two-memory circuit:
`mem1[waddr] <<= EnabledWrite(wdata, we)`,
`mem2[count] <<= EnabledWrite(wdata, we)`, and
`count.next <<= select(we, falsecase=count, truecase=count + 1)` with the
3-bit register truncating the incremented value. -/
def memCircuitStep (s : MemCircuitState) (i : MemCircuitInputs) : MemCircuitState :=
  ⟨commitPendingWrites s.mem1 [(maskW 3 i.waddr, maskW 32 i.wdata, some (maskW 1 i.we))],
   commitPendingWrites s.mem2 [(s.count, maskW 32 i.wdata, some (maskW 1 i.we))],
   if maskW 1 i.we = 0 then s.count else maskW 3 (s.count + 1)⟩

/-- Running the two-memory circuit over a list of per-cycle inputs. -/
def memCircuitRun (s : MemCircuitState) : List MemCircuitInputs → MemCircuitState
  | [] => s
  | i :: rest => memCircuitRun (memCircuitStep s i) rest

/-- Number of cycles of an input sequence in which the 1-bit `we` input
is 1. -/
def countEnabled (ins : List MemCircuitInputs) : Nat :=
  ins.countP fun i => maskW 1 i.we == 1

/-! ### The notebook's concrete simulation values -/

/-- `simvals['we'] = "00111111110000000000000000"`. -/
def simvals_we : List Nat :=
  [0, 0, 1, 1, 1, 1, 1, 1, 1, 1, 0, 0, 0, 0, 0, 0, 0, 0, 0, 0, 0, 0, 0, 0, 0, 0]

/-- `simvals['waddr'] = "00012345670000000000000000"`. -/
def simvals_waddr : List Nat :=
  [0, 0, 0, 1, 2, 3, 4, 5, 6, 7, 0, 0, 0, 0, 0, 0, 0, 0, 0, 0, 0, 0, 0, 0, 0, 0]

/-- `simvals['wdata'] = "00123456789990000000000000"`. -/
def simvals_wdata : List Nat :=
  [0, 0, 1, 2, 3, 4, 5, 6, 7, 8, 9, 9, 9, 0, 0, 0, 0, 0, 0, 0, 0, 0, 0, 0, 0, 0]

/-- `simvals['raddr'] = "00000000000000000123456777"`. -/
def simvals_raddr : List Nat :=
  [0, 0, 0, 0, 0, 0, 0, 0, 0, 0, 0, 0, 0, 0, 0, 0, 0, 1, 2, 3, 4, 5, 6, 7, 7, 7]

/-- The 26 per-cycle input assignments fed to `sim.step` by the notebook. -/
def notebookInputs : List MemCircuitInputs :=
  (List.range 26).map fun c =>
    ⟨simvals_waddr.getD c 0, simvals_wdata.getD c 0, simvals_we.getD c 0, simvals_raddr.getD c 0⟩

/-- `mem1_init = mem2_init = {addr: 9 for addr in range(8)}`; addresses
outside the initial map default to the deterministic undefined marker 0. -/
def mem_init : Contents := fun a => if a < 8 then 9 else 0

/-- The simulation's starting state: both memories seeded from
`memory_value_map`, the register reset to 0. -/
def notebookStart : MemCircuitState := ⟨mem_init, mem_init, 0⟩

/-- The circuit state at the start of cycle `n` of the notebook simulation. -/
def stateAt (n : Nat) : MemCircuitState :=
  memCircuitRun notebookStart (notebookInputs.take n)

/-- The value on the `rdata1` output wire during cycle `n`. -/
def rdata1At (n : Nat) : Nat :=
  rdata1 (stateAt n) (notebookInputs.getD n ⟨0, 0, 0, 0⟩)

/-- The value on the `rdata2` output wire during cycle `n`. -/
def rdata2At (n : Nat) : Nat :=
  rdata2 (stateAt n) (notebookInputs.getD n ⟨0, 0, 0, 0⟩)

/-- The value on the `validate` output wire during cycle `n`. -/
def validateAt (n : Nat) : Nat :=
  validate (stateAt n) (notebookInputs.getD n ⟨0, 0, 0, 0⟩)

/-! ### The ROM circuit of the notebook (Part 2) -/

/-- `def rom_data_func(address): return 31 - 2 * address`. -/
def rom_data_func (address : Nat) : Nat := 31 - 2 * address

/-- `rom_data_array = [rom_data_func(a) for a in range(16)]`. -/
def rom_data_array : List Nat := (List.range 16).map rom_data_func

/-- Modelled from the spec: ROM contents fixed at construction from a total
generator function, each value a bit vector of the ROM's bitwidth. -/
def romContentsOfFunc (bitwidth : Nat) (f : Nat → Nat) : Contents :=
  fun a => maskW bitwidth (f a)

/-- Modelled from the spec: ROM contents fixed at construction from an
explicit total ordered sequence of values of length `2 ^ addrwidth`. -/
def romContentsOfList (bitwidth : Nat) (l : List Nat) : Contents :=
  fun a => maskW bitwidth (l.getD a 0)

/-- The two Input wires of the ROM circuit:
`rom_add_1 = Input(4)`, `rom_add_2 = Input(4)`. -/
structure RomCircuitInputs where
  rom_add_1 : Nat
  rom_add_2 : Nat

/-- The persistent storage of the ROM circuit: the contents of
`rom1 = RomBlock(bitwidth=5, addrwidth=4, romdata=rom_data_func)` and
`rom2 = RomBlock(5, 4, rom_data_array)`. -/
structure RomCircuitState where
  rom1 : Contents
  rom2 : Contents

/-- The ROM circuit's storage as constructed by the notebook. -/
def romStart : RomCircuitState :=
  ⟨romContentsOfFunc 5 rom_data_func, romContentsOfList 5 rom_data_array⟩

/-- Combinational ROM read through a 4-bit address wire. -/
def romRead (m : Contents) (addr : Nat) : Nat := m (maskW 4 addr)

/-- `temp1 = rom1[rom_add_1]`, later `rom_out_1 <<= temp1`. -/
def rom_out_1 (s : RomCircuitState) (i : RomCircuitInputs) : Nat :=
  romRead s.rom1 i.rom_add_1

/-- `temp2 = rom2[rom_add_1]`, later `rom_out_2 <<= temp2`. -/
def rom_out_2 (s : RomCircuitState) (i : RomCircuitInputs) : Nat :=
  romRead s.rom2 i.rom_add_1

/-- `rom_out_3 <<= rom2[rom_add_2]`. -/
def rom_out_3 (s : RomCircuitState) (i : RomCircuitInputs) : Nat :=
  romRead s.rom2 i.rom_add_2

/-- `cmp_out <<= temp1 == temp2`. -/
def cmp_out (s : RomCircuitState) (i : RomCircuitInputs) : Nat :=
  if rom_out_1 s i = rom_out_2 s i then 1 else 0

/-- Modelled from the spec: a ROM has exactly 0 write ports, so the
commit phase of a cycle stages no writes on it and the storage is
unchanged at every cycle boundary. -/
def romCircuitStep (s : RomCircuitState) (_i : RomCircuitInputs) : RomCircuitState :=
  ⟨commitPendingWrites s.rom1 [], commitPendingWrites s.rom2 []⟩

/-- Running the ROM circuit over a list of per-cycle inputs. -/
def romCircuitRun (s : RomCircuitState) : List RomCircuitInputs → RomCircuitState
  | [] => s
  | i :: rest => romCircuitRun (romCircuitStep s i) rest

/-! ### The simulation driver's input validation -/

/-- Taxonomy of simulator errors, modelled from the spec. -/
inductive ErrorKind where
  | inputMismatch
  | invalidPhase
  | readOnlyViolation
deriving DecidableEq

/-- A required Input wire: a numeric wire id and its bitwidth. -/
structure InputSpec where
  ident : Nat
  bitwidth : Nat
deriving DecidableEq

/-- The required Input wires of the two-memory circuit: ids
0 = `waddr` (3 bits), 1 = `wdata` (32 bits), 2 = `we` (1 bit),
3 = `raddr` (3 bits). -/
def notebookInputSpecs : List InputSpec :=
  [⟨0, 3⟩, ⟨1, 32⟩, ⟨2, 1⟩, ⟨3, 3⟩]

/-- Modelled from the spec: every required Input wire must have an
assignment and each value must fit its wire's bitwidth. -/
def inputAssignmentOk (required : List InputSpec) (asn : Nat → Option Nat) : Bool :=
  required.all fun w =>
    match asn w.ident with
    | none => false
    | some v => decide (v < 2 ^ w.bitwidth)

/-- The full SimulationState of the two-memory circuit: register value and
memory contents (inside `circuit`) plus the cycle index. -/
structure SimulationState where
  circuit : MemCircuitState
  cycle_index : Nat

/-- Modelled from the spec: `step` first validates the per-cycle input
assignment; on failure it fails with `InputMismatch` and produces no new
state; otherwise it runs Evaluate then Commit exactly once and advances
`cycle_index`. -/
def simStep (st : SimulationState) (asn : Nat → Option Nat) :
    Except ErrorKind SimulationState :=
  if inputAssignmentOk notebookInputSpecs asn then
    Except.ok
      ⟨memCircuitStep st.circuit
          ⟨(asn 0).getD 0, (asn 1).getD 0, (asn 2).getD 0, (asn 3).getD 0⟩,
        st.cycle_index + 1⟩
  else Except.error ErrorKind.inputMismatch

/-- The state a driver observes after a `step` call: the new state on
success, the state as of the last successful commit on failure. -/
def simStepKeep (st : SimulationState) (asn : Nat → Option Nat) : SimulationState :=
  match simStep st asn with
  | Except.ok st2 => st2
  | Except.error _ => st

/-! ### Helper lemmas -/

theorem maskW_maskW (w v : Nat) : maskW w (maskW w v) = maskW w v :=
  Nat.mod_mod_of_dvd v dvd_rfl

theorem elementStep_bitwidth (e : StorageElement) (wa wd w : Nat) :
    (elementStep e wa wd w).bitwidth = e.bitwidth := rfl

theorem elementStep_addrwidth (e : StorageElement) (wa wd w : Nat) :
    (elementStep e wa wd w).addrwidth = e.addrwidth := rfl

theorem elementStep_contents (e : StorageElement) (wa wd w : Nat) :
    (elementStep e wa wd w).contents =
      commitPendingWrites e.contents
        [(maskW e.addrwidth wa, maskW e.bitwidth wd, some (maskW 1 w))] := rfl

theorem memCircuitStep_count (s : MemCircuitState) (i : MemCircuitInputs) :
    (memCircuitStep s i).count =
      if maskW 1 i.we = 0 then s.count else maskW 3 (s.count + 1) := rfl

theorem memCircuitRun_cons (s : MemCircuitState) (i : MemCircuitInputs)
    (rest : List MemCircuitInputs) :
    memCircuitRun s (i :: rest) = memCircuitRun (memCircuitStep s i) rest := rfl

theorem memCircuitRun_count (ins : List MemCircuitInputs) :
    ∀ s : MemCircuitState, s.count < 8 →
      (memCircuitRun s ins).count = (s.count + countEnabled ins) % 8 := by
  induction ins with
  | nil =>
    intro s hs
    simp only [memCircuitRun, countEnabled, List.countP_nil, Nat.add_zero]
    exact (Nat.mod_eq_of_lt hs).symm
  | cons i rest ih =>
    intro s hs
    rw [memCircuitRun_cons]
    by_cases hw : maskW 1 i.we = 0
    · have hc : (memCircuitStep s i).count = s.count := by
        rw [memCircuitStep_count, if_pos hw]
      have hrun := ih (memCircuitStep s i) (by rw [hc]; exact hs)
      have hcnt : countEnabled (i :: rest) = countEnabled rest := by
        simp [countEnabled, List.countP_cons, hw]
      rw [hrun, hc, hcnt]
    · have hw1 : maskW 1 i.we = 1 := by
        have h2 : i.we % 2 < 2 := Nat.mod_lt _ (by norm_num)
        simp only [maskW, pow_one] at hw ⊢
        omega
      have hc : (memCircuitStep s i).count = (s.count + 1) % 8 := by
        rw [memCircuitStep_count, if_neg hw]
        simp [maskW]
      have hrun := ih (memCircuitStep s i)
        (by rw [hc]; exact Nat.mod_lt _ (by norm_num))
      have hcnt : countEnabled (i :: rest) = countEnabled rest + 1 := by
        simp [countEnabled, List.countP_cons, hw1]
      rw [hrun, hc, hcnt]
      omega

theorem commitPendingWrites_nil (m : Contents) : commitPendingWrites m [] = m := rfl

theorem romCircuitRun_fix (ins : List RomCircuitInputs) :
    ∀ s : RomCircuitState, romCircuitRun s ins = s := by
  induction ins with
  | nil => intro s; rfl
  | cons i rest ih => intro s; exact ih s

theorem maskW_four_lt (A : Nat) : maskW 4 A < 16 := by
  show A % 2 ^ 4 < 16
  exact Nat.mod_lt A (by norm_num)

theorem romStart_rom1_eval : ∀ a, a < 16 → romStart.rom1 a = rom_data_func a := by
  decide

theorem romStart_rom2_eval : ∀ a, a < 16 → romStart.rom2 a = rom_data_array.getD a 0 := by
  decide

theorem romStart_roms_agree : ∀ a, a < 16 → romStart.rom1 a = romStart.rom2 a := by
  decide

/-! ### Claims -/

/-- Claim C1: for every memory and address `A`, if a write to `A` is staged
and enabled in cycle `N`, then a read of `A` in cycle `N` returns the value
`A` held at the start of cycle `N` (the pre-write value), and a read of `A`
in cycle `N + 1` returns the value written in cycle `N`. -/
theorem write_visibility_delay (e : StorageElement) (waddr wdata we A : Nat)
    (hA : A = maskW e.addrwidth waddr) (hen : maskW 1 we ≠ 0) :
    elementRead e A = e.contents A ∧
    elementRead (elementStep e waddr wdata we) A = maskW e.bitwidth wdata := by
  subst hA
  refine ⟨by simp [elementRead, maskW_maskW], ?_⟩
  simp [elementRead, elementStep, commitPendingWrites, commitPortWrite,
    effectiveEnable, hen, maskW_maskW]

/-- Witness for `write_visibility_delay` at a concrete memory and write. -/
theorem write_visibility_delay_witness :
    elementRead ⟨0, 32, 3, fun _ => 9⟩ 2 =
      (⟨0, 32, 3, fun _ => 9⟩ : StorageElement).contents 2 ∧
    elementRead (elementStep ⟨0, 32, 3, fun _ => 9⟩ 2 5 1) 2 = maskW 32 5 :=
  write_visibility_delay ⟨0, 32, 3, fun _ => 9⟩ 2 5 1 2 (by decide) (by decide)

/-- Claim C2: when the 1-bit enable wire's value is 0 in a cycle, the
contents after that cycle's commit equal the contents before it, for all
values of the address and data wires; the effective enable of a write port
is `enable_wire.value != 0` when an enable wire is present, and `true`
otherwise. -/
theorem write_enable_gating (e : StorageElement) (waddr wdata we v : Nat)
    (h : maskW 1 we = 0) :
    (elementStep e waddr wdata we).contents = e.contents ∧
    effectiveEnable (some (maskW 1 we)) = false ∧
    effectiveEnable (some v) = decide (v ≠ 0) ∧
    effectiveEnable none = true := by
  refine ⟨?_, by simp [effectiveEnable, h], rfl, rfl⟩
  simp [elementStep, commitPendingWrites, commitPortWrite, effectiveEnable, h]

/-- Witness for `write_enable_gating` at a concrete disabled write. -/
theorem write_enable_gating_witness :
    (elementStep ⟨0, 32, 3, fun _ => 9⟩ 3 77 0).contents =
      (⟨0, 32, 3, fun _ => 9⟩ : StorageElement).contents ∧
    effectiveEnable (some (maskW 1 0)) = false ∧
    effectiveEnable (some 5) = decide (5 ≠ 0) ∧
    effectiveEnable none = true :=
  write_enable_gating ⟨0, 32, 3, fun _ => 9⟩ 3 77 0 5 (by decide)

/-- Claim C4: two independently constructed storage elements with identical
bitwidth, addrwidth and initial contents, fed identical write-port
address/data/enable values and read at the same address each cycle, produce
identical read-port outputs at every cycle of any input sequence. -/
theorem storage_equiv (e1 e2 : StorageElement) (ins : List (Nat × Nat × Nat × Nat))
    (hbw : e1.bitwidth = e2.bitwidth) (haw : e1.addrwidth = e2.addrwidth)
    (hc : e1.contents = e2.contents) :
    elementTrace e1 ins = elementTrace e2 ins := by
  induction ins generalizing e1 e2 with
  | nil => rfl
  | cons i rest ih =>
    obtain ⟨ra, wa, wd, w⟩ := i
    have h1 : elementRead e1 ra = elementRead e2 ra := by
      simp [elementRead, haw, hc]
    have h2 := ih (elementStep e1 wa wd w) (elementStep e2 wa wd w)
      hbw haw
      (by rw [elementStep_contents, elementStep_contents, hbw, haw, hc])
    simp only [elementTrace, h1, h2]

/-- Witness for `storage_equiv`: two distinct instances of `MemBlock(32, 3)`
with the notebook's initial contents and one cycle of identical stimulus. -/
theorem storage_equiv_witness :
    elementTrace ⟨1, 32, 3, fun a => if a < 8 then 9 else 0⟩ [(0, 0, 1, 1), (0, 2, 3, 0)] =
      elementTrace ⟨2, 32, 3, fun a => if a < 8 then 9 else 0⟩ [(0, 0, 1, 1), (0, 2, 3, 0)] :=
  storage_equiv ⟨1, 32, 3, fun a => if a < 8 then 9 else 0⟩
    ⟨2, 32, 3, fun a => if a < 8 then 9 else 0⟩ [(0, 0, 1, 1), (0, 2, 3, 0)] rfl rfl rfl

/-- Claim C9: the 3-bit `count` register wraps modulo 8: in every reachable
state of the notebook simulation, `count` equals the number of cycles so
far in which `we` was 1, taken modulo 8, hence is always in `[0, 8)`, and
an enabled increment at `count = 7` yields `count = 0` in the next cycle. -/
theorem count_wraps_mod8 (ins : List MemCircuitInputs) (s : MemCircuitState)
    (i : MemCircuitInputs) (h7 : s.count = 7) (hen : maskW 1 i.we = 1) :
    (memCircuitRun notebookStart ins).count = countEnabled ins % 8 ∧
    (memCircuitRun notebookStart ins).count < 8 ∧
    (memCircuitStep s i).count = 0 := by
  have h0 : notebookStart.count = 0 := rfl
  have hm := memCircuitRun_count ins notebookStart (by rw [h0]; norm_num)
  refine ⟨by rw [hm, h0, Nat.zero_add], by rw [hm]; exact Nat.mod_lt _ (by norm_num), ?_⟩
  rw [memCircuitStep_count, if_neg (by rw [hen]; norm_num), h7]
  decide

/-- Witness for `count_wraps_mod8`: the empty input sequence and an enabled
increment from `count = 7`. -/
theorem count_wraps_mod8_witness :
    (memCircuitRun notebookStart []).count = countEnabled [] % 8 ∧
    (memCircuitRun notebookStart []).count < 8 ∧
    (memCircuitStep ⟨mem_init, mem_init, 7⟩ ⟨0, 0, 1, 0⟩).count = 0 :=
  count_wraps_mod8 [] ⟨mem_init, mem_init, 7⟩ ⟨0, 0, 1, 0⟩ rfl (by decide)

/-- Claim C3: no sequence of step calls changes either ROM's contents,
which stay equal to their as-constructed values, and every read through
the 4-bit address wire returns exactly the value produced by the defining
function (`rom1`) or by the defining sequence (`rom2`) at that address. -/
theorem rom_immutable (ins : List RomCircuitInputs) (A : Nat) :
    (romCircuitRun romStart ins).rom1 A = romStart.rom1 A ∧
    (romCircuitRun romStart ins).rom2 A = romStart.rom2 A ∧
    romRead (romCircuitRun romStart ins).rom1 A = rom_data_func (maskW 4 A) ∧
    romRead (romCircuitRun romStart ins).rom2 A = rom_data_array.getD (maskW 4 A) 0 := by
  rw [romCircuitRun_fix ins romStart]
  exact ⟨rfl, rfl, romStart_rom1_eval _ (maskW_four_lt A),
    romStart_rom2_eval _ (maskW_four_lt A)⟩

/-- Claim C10: the ROM defined by `rom_data_func` and the ROM of the same
shape defined by `[rom_data_func(a) for a in range(16)]` are equivalent:
read at the same address wire they return equal values in every cycle of
every simulation, so the `cmp_out` output is 1 in every cycle. -/
theorem rom_func_list_equiv (ins : List RomCircuitInputs) (i : RomCircuitInputs) :
    rom_out_1 (romCircuitRun romStart ins) i = rom_out_2 (romCircuitRun romStart ins) i ∧
    cmp_out (romCircuitRun romStart ins) i = 1 := by
  rw [romCircuitRun_fix ins romStart]
  have heq : rom_out_1 romStart i = rom_out_2 romStart i :=
    romStart_roms_agree _ (maskW_four_lt i.rom_add_1)
  refine ⟨heq, ?_⟩
  unfold cmp_out
  rw [if_pos heq]

/-- Claim C5 (counterexample): in the notebook simulation the read-address
scan does not start at cycle 19 — cycle 19 reads address 3 and outputs 4 —
so the eight reads starting at cycle 19 do not yield `1, 2, ..., 8`. -/
theorem read_scan_not_at_cycle19 :
    (notebookInputs.getD 19 ⟨0, 0, 0, 0⟩).raddr = 3 ∧
    rdata1At 19 = 4 ∧
    (List.range 8).map (fun k => rdata1At (19 + k)) ≠ [1, 2, 3, 4, 5, 6, 7, 8] := by
  decide

/-- Claim C5 (amended): in the notebook's concrete scenario the read
addresses scan 0 through 7 at cycles 16 through 23, and those eight
sequential reads yield the output sequence `1, 2, 3, 4, 5, 6, 7, 8` on
both read ports. -/
theorem read_scan_yields_written :
    (List.range 8).map (fun k => (notebookInputs.getD (16 + k) ⟨0, 0, 0, 0⟩).raddr) =
      [0, 1, 2, 3, 4, 5, 6, 7] ∧
    (List.range 8).map (fun k => rdata1At (16 + k)) = [1, 2, 3, 4, 5, 6, 7, 8] ∧
    (List.range 8).map (fun k => rdata2At (16 + k)) = [1, 2, 3, 4, 5, 6, 7, 8] := by
  decide

/-- Claim C6: for the ROM with `addrwidth = 4` defined by
`f(a) = 31 - 2 * a`, reading address 5 returns 21, and reading every
address from 0 to 15 in order reproduces `31, 29, 27, ..., 1` (on the
function-defined and the list-defined ROM alike). -/
theorem rom_concrete_values :
    romRead romStart.rom1 5 = 21 ∧ romRead romStart.rom2 5 = 21 ∧
    (List.range 16).map (fun a => romRead romStart.rom1 a) =
      [31, 29, 27, 25, 23, 21, 19, 17, 15, 13, 11, 9, 7, 5, 3, 1] ∧
    (List.range 16).map (fun a => romRead romStart.rom2 a) =
      [31, 29, 27, 25, 23, 21, 19, 17, 15, 13, 11, 9, 7, 5, 3, 1] := by
  decide

/-- Claim C7: in the two-memory notebook circuit, after the 8 enabled
writes with addresses 0..7 and data 1..8 (that is, at the start of cycle
10), both storage elements hold the mapping `{0: 1, 1: 2, ..., 7: 8}`, and
the `validate` output comparing the two address sources equals 1 in every
cycle in which a write occurs. -/
theorem round_trip_register_indexed :
    (List.range 8).map (fun a => (stateAt 10).mem1 a) = [1, 2, 3, 4, 5, 6, 7, 8] ∧
    (List.range 8).map (fun a => (stateAt 10).mem2 a) = [1, 2, 3, 4, 5, 6, 7, 8] ∧
    ((List.range 26).all fun c => (simvals_we.getD c 0 == 0) || (validateAt c == 1)) = true := by
  decide

/-- Claim C8: a step call whose input assignment is missing a required
Input wire or contains a value that does not fit that wire's bitwidth
fails with an InputMismatch error, and the SimulationState (register
values, memory contents, cycle index) is exactly the state of the last
successful commit — no partial cycle effect is observable. -/
theorem step_input_mismatch (st : SimulationState) (asn : Nat → Option Nat)
    (w : InputSpec) (hw : w ∈ notebookInputSpecs)
    (hbad : asn w.ident = none ∨ ∃ v, asn w.ident = some v ∧ 2 ^ w.bitwidth ≤ v) :
    simStep st asn = Except.error ErrorKind.inputMismatch ∧
    simStepKeep st asn = st := by
  have hok : inputAssignmentOk notebookInputSpecs asn = false := by
    cases hB : inputAssignmentOk notebookInputSpecs asn with
    | false => rfl
    | true =>
      exfalso
      unfold inputAssignmentOk at hB
      have hall := List.all_eq_true.mp hB w hw
      rcases hbad with hnone | ⟨v, hv, hge⟩
      · rw [hnone] at hall
        simp at hall
      · rw [hv] at hall
        simp only [decide_eq_true_eq] at hall
        omega
  have h1 : simStep st asn = Except.error ErrorKind.inputMismatch := by
    unfold simStep
    rw [hok]
    simp
  refine ⟨h1, ?_⟩
  unfold simStepKeep
  rw [h1]

/-- Witness for `step_input_mismatch`: the empty assignment is missing the
1-bit `we` input wire, so the step fails and the state is unchanged. -/
theorem step_input_mismatch_witness :
    simStep ⟨notebookStart, 0⟩ (fun _ => none) = Except.error ErrorKind.inputMismatch ∧
    simStepKeep ⟨notebookStart, 0⟩ (fun _ => none) = ⟨notebookStart, 0⟩ :=
  step_input_mismatch ⟨notebookStart, 0⟩ (fun _ => none) ⟨2, 1⟩ (by decide) (Or.inl rfl)

end PyRTL
